import Mathlib

/-!
Verification of the request-lifecycle orchestration layer of the forum
analysis application (`src/app.py`).

The development shallowly embeds the Python source:

* `QueryProcessorCache` (app.py lines 63-110) becomes a Lean structure over
  an association list (modelling the insertion-ordered Python dict
  `_cache`) and a plain list (`_access_order`).  Constructed
  `QueryProcessor` objects are modelled by fresh natural-number handles
  drawn from a `nextId` counter, which captures Python object identity.
  The possibility that `QueryProcessor(thread_dir)` raises is modelled by
  an explicit `ctorFails : Option String` argument; when it is `some e`
  the exception `e` propagates (`Except.error`) exactly as in the source,
  before any cache mutation.

* The `/ask` streaming flow (`ask`, `generate_response`,
  `process_thread_async`) is embedded as pure functions from a `World`
  (the external collaborators: filesystem existence checks, the thread
  processor, the query processor, the key validator from
  `utils.security`) to the list of text chunks the HTTP response yields.
  The producer/consumer hand-off through `queue.Queue` is collapsed into
  list concatenation: the generator drains the queue until the background
  thread signals completion and only then starts the query phase, so the
  observable stream is exactly (messages pushed by the background thread,
  in push order) ++ (consumer-phase output).

* JSON-like collaborator data (`processing_results`,
  `analytics_summary`) is modelled by the inductive `JVal`; Python
  `dict.get`, truthiness, `>` comparison and `max(..., key=...)` are
  modelled by `jget`, `truthy`, `pyGt` and `pyMax`, with `Except String`
  standing for a raised exception.  Mixed-type comparisons raise
  (TypeError) as in Python; container-container comparison is not
  modelled, and no theorem relies on it.
-/

namespace ForumApp

/-! ### Association-list helpers (Python dict / list primitives)

`lookupA l k` models `d[k]` / `k in d` on the insertion-ordered dict,
`eraseKeyA l k` models `del d[k]`, and `removeFirst l k` models
`list.remove(k)` (removal of the first occurrence).  Python's
`list.remove` raises `ValueError` when the element is absent; the cache
only calls it on keys just found in `_cache`, and the invariant proved
below (claim C10) shows such a key is always present in `_access_order`,
so the total Lean function agrees with the source on all reachable
states. -/

def lookupA : List (String × Nat) → String → Option Nat
  | [], _ => none
  | (k, v) :: rest, key => if k = key then some v else lookupA rest key

def eraseKeyA : List (String × Nat) → String → List (String × Nat)
  | [], _ => []
  | (k, v) :: rest, key => if k = key then rest else (k, v) :: eraseKeyA rest key

def removeFirst : List String → String → List String
  | [], _ => []
  | k :: rest, key => if k = key then rest else k :: removeFirst rest key

/-! ### The query-processor cache (app.py lines 63-110) -/

/-- State of `QueryProcessorCache`.  `_cache` is the insertion-ordered
dict from thread key to the constructed processor (a `Nat` handle);
`_access_order` is the recency list (least recently used first);
`nextId` is the supply of fresh handles modelling object construction.
The `threading.RLock` serialises all mutation in the source, so the
state-transformer embedding is faithful. -/
structure QueryProcessorCache where
  _cache : List (String × Nat)
  _access_order : List String
  _max_size : Nat
  nextId : Nat
deriving DecidableEq

/-- `QueryProcessorCache.__init__` with a given `max_size`
(`QUERY_PROCESSOR_CACHE_SIZE` in the source's config). -/
def initCache (max_size : Nat) : QueryProcessorCache :=
  { _cache := [], _access_order := [], _max_size := max_size, nextId := 0 }

/-- `QueryProcessorCache._cleanup_if_needed`:
`while len(self._cache) > self._max_size:` pop the head of
`_access_order` and, if that key is in `_cache`, delete it.  The
recursion follows `_access_order`; the `[]` case corresponds to
`pop(0)` raising `IndexError`, which the invariant below shows is
unreachable. -/
def cleanupLoop (maxSize : Nat) : List String → List (String × Nat) →
    List String × List (String × Nat)
  | order, cache =>
    if cache.length ≤ maxSize then (order, cache)
    else
      match order with
      | [] => ([], cache)
      | lru :: rest =>
        cleanupLoop maxSize rest
          (if (lookupA cache lru).isSome then eraseKeyA cache lru else cache)

def QueryProcessorCache.cleanup_if_needed (c : QueryProcessorCache) : QueryProcessorCache :=
  let r := cleanupLoop c._max_size c._access_order c._cache
  { c with _access_order := r.1, _cache := r.2 }

/-- `QueryProcessorCache.get` (app.py lines 72-92).  On a hit the key is
promoted to most-recently-used and the stored handle returned.  On a
miss `QueryProcessor(thread_dir)` is constructed: `ctorFails = some e`
models that constructor raising `e`, in which case the exception
propagates before any mutation; otherwise the fresh handle is inserted,
the recency list extended, and `_cleanup_if_needed` run. -/
def QueryProcessorCache.get (c : QueryProcessorCache) (thread_key : String)
    (ctorFails : Option String) : Except String (Nat × QueryProcessorCache) :=
  match lookupA c._cache thread_key with
  | some p =>
    .ok (p, { c with _access_order := removeFirst c._access_order thread_key ++ [thread_key] })
  | none =>
    match ctorFails with
    | some e => .error e
    | none =>
      let p := c.nextId
      let c1 : QueryProcessorCache :=
        { c with
            _cache := c._cache ++ [(thread_key, p)],
            _access_order := c._access_order ++ [thread_key],
            nextId := c.nextId + 1 }
      .ok (p, c1.cleanup_if_needed)

/-- `QueryProcessorCache.clear` (app.py lines 102-106). -/
def QueryProcessorCache.clear (c : QueryProcessorCache) : QueryProcessorCache :=
  { c with _cache := [], _access_order := [] }

/-- `QueryProcessorCache.size` (app.py lines 108-110). -/
def QueryProcessorCache.size (c : QueryProcessorCache) : Nat :=
  c._cache.length

/-- Keys of the cache dict, in insertion order. -/
def cacheKeys (c : QueryProcessorCache) : List String :=
  c._cache.map Prod.fst

/-- Synchronisation invariant between a recency list and the dict:
no duplicates on either side and the same underlying key set. -/
def Sync (order : List String) (cache : List (String × Nat)) : Prop :=
  order.Nodup ∧ (cache.map Prod.fst).Nodup ∧
    (∀ k ∈ order, k ∈ cache.map Prod.fst) ∧
    (∀ k ∈ cache.map Prod.fst, k ∈ order)

instance (order : List String) (cache : List (String × Nat)) : Decidable (Sync order cache) := by
  unfold Sync; infer_instance

/-- Well-formedness of a cache state: `_access_order` and `_cache` are
synchronised. -/
def cacheWf (c : QueryProcessorCache) : Prop :=
  Sync c._access_order c._cache

instance (c : QueryProcessorCache) : Decidable (cacheWf c) := by
  unfold cacheWf; infer_instance

/-- One successful `get` call viewed as a state transformer (the
`ctorFails = none` path never returns an error, so the `error` branch
is vacuous). -/
def getStep (c : QueryProcessorCache) (k : String) : QueryProcessorCache :=
  match c.get k none with
  | .ok r => r.2
  | .error _ => c

/-- A sequence of `get` calls starting from a fresh cache of capacity
`max_size`. -/
def runGets (max_size : Nat) (ks : List String) : QueryProcessorCache :=
  ks.foldl getStep (initCache max_size)

/-! ### JSON-like collaborator data and the Python primitives over it -/

/-- A JSON-like Python value, as handed back by the thread processor
(`processing_results`, `analytics_summary`, ...).  Floats are not
modelled; no claim depends on them. -/
inductive JVal where
  | str (s : String)
  | num (n : Int)
  | bool (b : Bool)
  | null
  | dict (entries : List (String × JVal))
  | jlist (items : List JVal)

def lookupJ : List (String × JVal) → String → Option JVal
  | [], _ => none
  | (k, v) :: rest, key => if k = key then some v else lookupJ rest key

/-- Name of the Python type of a value, for exception messages. -/
def pyTypeName : JVal → String
  | .str _ => "str"
  | .num _ => "int"
  | .bool _ => "bool"
  | .null => "NoneType"
  | .dict _ => "dict"
  | .jlist _ => "list"

mutual
/-- Python `repr()` restricted to the modelled values. -/
def pyRepr : JVal → String
  | .str s => "'" ++ s ++ "'"
  | .num n => toString n
  | .bool b => if b then "True" else "False"
  | .null => "None"
  | .dict es => "\x7b" ++ pyReprEntries es ++ "\x7d"
  | .jlist xs => "[" ++ pyReprItems xs ++ "]"

def pyReprEntries : List (String × JVal) → String
  | [] => ""
  | [(k, v)] => "'" ++ k ++ "': " ++ pyRepr v
  | (k, v) :: rest => "'" ++ k ++ "': " ++ pyRepr v ++ ", " ++ pyReprEntries rest

def pyReprItems : List JVal → String
  | [] => ""
  | [v] => pyRepr v
  | v :: rest => pyRepr v ++ ", " ++ pyReprItems rest
end

/-- Python `str()`, as used by f-string interpolation: identical to
`repr()` except on strings, which render without quotes. -/
def pyStr : JVal → String
  | .str s => s
  | v => pyRepr v

/-- Python truthiness. -/
def truthy : JVal → Bool
  | .str s => s != ""
  | .num n => n != 0
  | .bool b => b
  | .null => false
  | .dict es => !es.isEmpty
  | .jlist xs => !xs.isEmpty

/-- Python `v.get(key, default)`: raises `AttributeError` unless `v` is
a dict. -/
def jget (v : JVal) (key : String) (default : JVal) : Except String JVal :=
  match v with
  | .dict es => .ok ((lookupJ es key).getD default)
  | _ => .error ("'" ++ pyTypeName v ++ "' object has no attribute 'get'")

/-- Python `v.items()`: raises `AttributeError` unless `v` is a dict.
(Dict iteration order is insertion order, as in CPython.) -/
def jitems : JVal → Except String (List (String × JVal))
  | .dict es => .ok es
  | v => .error ("'" ++ pyTypeName v ++ "' object has no attribute 'items'")

/-- Numeric view of a value for comparisons: Python `bool` is an `int`
subclass. -/
def pyNum? : JVal → Option Int
  | .num n => some n
  | .bool b => some (if b then 1 else 0)
  | _ => none

/-- Python `a > b`.  Numbers compare with numbers and strings with
strings; a mixed-type comparison raises `TypeError`.  (Python also
compares lists element-wise; that case is not modelled and no theorem
relies on it.) -/
def pyGt (a b : JVal) : Except String Bool :=
  match pyNum? a, pyNum? b with
  | some x, some y => .ok (decide (y < x))
  | _, _ =>
    match a, b with
    | .str s, .str t => .ok (decide (t < s))
    | _, _ => .error ("'>' not supported between instances of '" ++
        pyTypeName a ++ "' and '" ++ pyTypeName b ++ "'")

/-- The loop of CPython `max(iterable, key=...)`: keep the current
maximum, replace it only when a later element's key is strictly
greater — so ties keep the first-encountered element. -/
def pyMaxGo (key : α → Except String JVal) (cur : α) (curKey : JVal) :
    List α → Except String α
  | [] => .ok cur
  | y :: ys =>
    match key y with
    | .error e => .error e
    | .ok ky =>
      match pyGt ky curKey with
      | .error e => .error e
      | .ok true => pyMaxGo key y ky ys
      | .ok false => pyMaxGo key cur curKey ys

/-- Python `max(items, key=...)`; raises `ValueError` on an empty
iterable. -/
def pyMax (key : α → Except String JVal) : List α → Except String α
  | [] => .error "max() arg is an empty sequence"
  | x :: xs =>
    match key x with
    | .error e => .error e
    | .ok kx => pyMaxGo key x kx xs

/-! ### The external collaborators of the orchestration core -/

/-- The `analysis` object a query result may carry (consumed at app.py
lines 488-501); modelled structurally: `none` stands for a falsy
`query_results.get('analysis', {})`. -/
structure QueryAnalysis where
  is_vague : Bool
  analytical_intent : List String
  context_hints : List String

/-- The value of `query_processor.process_query(prompt, stream=True)`.
`error` models the in-band `'error'` key; `response_stream` is the lazy
chunk stream, `some (chunks, some e)` meaning iteration raises `e`
after yielding `chunks`, and `none` a falsy/absent stream. -/
structure QueryResults where
  error : Option String
  analysis : Option QueryAnalysis
  response_stream : Option (List String × Option String)

/-- The external collaborators, uninterpreted: filesystem existence of
the per-thread directory, the `utils.security` key validator, URL
normalisation, the thread processor (returning the progress events it
emits through the callback and either a raised exception or
`(thread_key, processing_results)`), whether `QueryProcessor(dir)`
raises for a key, the query engine, and `thread_processor.delete_thread`. -/
structure World where
  threadExists : String → Bool
  validate_thread_key : String → Bool
  normalize_url : String → String
  processThread : String → List String × Except String (String × JVal)
  reprocessThread : String → List String × Except String (String × JVal)
  ctorFails : String → Option String
  processQuery : String → String → Except String QueryResults
  deleteThread : String → Except String Bool

/-! ### The `/ask` streaming flow (app.py lines 286-548) -/

/-- Dropping whitespace from both ends of a character list. -/
def stripChars (l : List Char) : List Char :=
  ((l.dropWhile Char.isWhitespace).reverse.dropWhile Char.isWhitespace).reverse

/-- Python `str.strip()` on the request fields (app.py lines 299-301):
drop whitespace from both ends. -/
def pyStrip (s : String) : String :=
  String.mk (stripChars s.data)

/-- `progress_update` (app.py lines 349-350): the literal text pushed
into the message queue for one progress event. -/
def progress_update (message : String) : String :=
  "PROGRESS: " ++ message ++ "\n"

/-- The line the two `except` blocks (app.py lines 446-447 and 539-541)
convert a caught exception into. -/
def excLine (e : String) : String :=
  "\n\nError: " ++ e ++ "\n"

/-- `'\n' + '=' * 50 + '\n\n'` (app.py line 444). -/
def separatorLine : String :=
  "\n" ++ String.mk (List.replicate 50 '=') ++ "\n\n"

/-- The analytics preview (app.py lines 420-444): the messages pushed,
plus `some e` when one of the accesses raised `e` part-way (earlier
messages stay pushed; the raise is caught by the surrounding
`except`). -/
def analyticsPreviewMsgs (results : JVal) : List String × Option String :=
  match jget results "analytics_summary" (.dict []) with
  | .error e => ([], some e)
  | .ok analytics_summary =>
    if truthy analytics_summary then
      match jget analytics_summary "metadata" (.dict []) with
      | .error e => ([], some e)
      | .ok metadata =>
      match jget analytics_summary "participants" (.dict []) with
      | .error e => ([], some e)
      | .ok participants =>
      match jget participants "total_participants" (.str "Unknown") with
      | .error e => ([], some e)
      | .ok tp =>
      let l1 := "Participants: " ++ pyStr tp ++ "\n"
      match jget metadata "total_pages" (.str "Unknown") with
      | .error e => ([l1], some e)
      | .ok pg =>
      let l2 := "Pages: " ++ pyStr pg ++ "\n"
      match jget participants "authors" (.dict []) with
      | .error e => ([l1, l2], some e)
      | .ok authors =>
      if truthy authors then
        match jitems authors with
        | .error e => ([l1, l2], some e)
        | .ok items =>
        match pyMax (fun x => jget x.2 "post_count" (.num 0)) items with
        | .error e => ([l1, l2], some e)
        | .ok most_active_author =>
        let author_name := most_active_author.1
        match jget most_active_author.2 "post_count" (.num 0) with
        | .error e => ([l1, l2], some e)
        | .ok post_count =>
        match pyGt post_count (.num 0) with
        | .error e => ([l1, l2], some e)
        | .ok b =>
          if b then
            ([l1, l2, "Most active: " ++ author_name ++ " (" ++ pyStr post_count ++ " posts)\n"],
             none)
          else ([l1, l2], none)
      else ([l1, l2], none)
    else ([], none)

/-- Messages pushed after `thread_processor.process_thread` returned
`(tk, results)` in the new-thread branch (app.py lines 415-444). -/
def newThreadResultMsgs (tk : String) (results : JVal) : List String :=
  let h := ["Thread processed: " ++ tk ++ "\n"]
  match jget results "posts_count" (.num 0) with
  | .error e => h ++ [excLine e]
  | .ok pc =>
    let h2 := h ++ ["Posts processed: " ++ pyStr pc ++ "\n"]
    match analyticsPreviewMsgs results with
    | (pm, some e) => h2 ++ pm ++ [excLine e]
    | (pm, none) => h2 ++ pm ++ [separatorLine]

/-- The new-thread branch of `process_thread_async` (app.py lines
398-444): messages pushed and the final value of the nonlocal
`thread_key` (which stays `None` when `process_thread` raises). -/
def newThreadBg (url : String) (w : World) : List String × Option String :=
  let normalized_url := w.normalize_url url
  let head := ["Creating new thread from: " ++ normalized_url ++ "\n",
               "Downloading and processing all pages...\n\n"]
  match w.processThread normalized_url with
  | (events, .error e) => (head ++ events.map progress_update ++ [excLine e], none)
  | (events, .ok (tk, results)) =>
    (head ++ events.map progress_update ++ newThreadResultMsgs tk results, some tk)

/-- Messages pushed after `reprocess_existing_thread` returned
(app.py lines 384-387). -/
def reprocessResultMsgs (results : JVal) : List String :=
  match jget results "posts_count" (.num 0) with
  | .error e => ["Thread reprocessed successfully!\n", excLine e]
  | .ok pc => ["Thread reprocessed successfully!\n", "Posts processed: " ++ pyStr pc ++ "\n"]

/-- The reprocess branch of `process_thread_async` (app.py lines
369-387).  The nonlocal `thread_key` was already set to the existing
key, so it survives a raise of `reprocess_existing_thread`. -/
def reprocessBg (thread_key : String) (w : World) : List String × Option String :=
  let head := ["Reprocessing existing thread: " ++ thread_key ++ "\n",
               "Re-parsing HTML files and rebuilding indexes...\n\n"]
  match w.reprocessThread thread_key with
  | (events, .error e) => (head ++ events.map progress_update ++ [excLine e], some thread_key)
  | (events, .ok (tk2, results)) =>
    (head ++ events.map progress_update ++ reprocessResultMsgs results, some tk2)

/-- `process_thread_async` (app.py lines 352-449): the messages the
background thread pushes into the queue, in push order, and the final
value of the nonlocal `thread_key`.  Note the source assigns
`thread_key = existing_thread` (line 358) before checking that the
thread directory exists, so `thread_key` is set even on the
not-found path. -/
def process_thread_async (existing_thread url : String) (reprocess : Bool) (w : World) :
    List String × Option String :=
  if existing_thread ≠ "" then
    let thread_key := existing_thread
    if ¬ w.threadExists thread_key then
      (["Error: Thread '" ++ thread_key ++ "' not found. Please delete and recreate with URL.\n"],
       some thread_key)
    else if reprocess then
      reprocessBg thread_key w
    else
      (["Using existing thread: " ++ thread_key ++ "\n"], some thread_key)
  else
    newThreadBg url w

/-- The query-analysis hint lines (app.py lines 488-501). -/
def analysisLines : Option QueryAnalysis → List String
  | none => []
  | some a =>
    (if a.is_vague then ["Detected broad/vague query - providing comprehensive overview.\n"]
     else [])
    ++ (if a.analytical_intent ≠ [] then
          ["Analytical focus: " ++ String.intercalate ", " a.analytical_intent ++ "\n"]
        else [])
    ++ (match a.context_hints with
        | [] => []
        | h :: _ => ["Context: " ++ h ++ "\n"])
    ++ ["\n"]

/-- The consumer part of `generate_response` after the background
thread has been joined (app.py lines 471-541): the lines yielded and
the cache after the request.  Every raise inside the `try` is caught at
line 539 and rendered as `excLine`, ending the generator. -/
def consumerPhase (prompt : String) (thread_key : Option String) (w : World)
    (cache : QueryProcessorCache) : List String × QueryProcessorCache :=
  match thread_key with
  | none => (["Error: Thread processing failed.\n"], cache)
  | some tk =>
    let hd := "Analyzing query and searching thread...\n\n"
    match cache.get tk (w.ctorFails tk) with
    | .error e => ([hd, excLine e], cache)
    | .ok (_, cache') =>
      match w.processQuery tk prompt with
      | .error e => ([hd, excLine e], cache')
      | .ok qr =>
        match qr.error with
        | some err => ([hd, "Error processing query: " ++ err ++ "\n"], cache')
        | none =>
          let alines := analysisLines qr.analysis
          match qr.response_stream with
          | none =>
            ([hd] ++ alines ++ ["Error: No response generated from query processor.\n"], cache')
          | some (chunks, exc) =>
            let body := chunks.filter (fun ch => ch != "")
            match exc with
            | some e => ([hd] ++ alines ++ body ++ [excLine e], cache')
            | none => ([hd] ++ alines ++ body, cache')

/-- `generate_response` (app.py lines 339-541) as the full list of
chunks the streamed 200 response yields: the single-producer /
single-consumer FIFO queue is drained completely before the consumer
starts the query phase, so the stream is the background messages in
push order followed by the consumer-phase lines. -/
def generate_response (prompt existing_thread url : String) (reprocess : Bool) (w : World)
    (cache : QueryProcessorCache) : List String × QueryProcessorCache :=
  let bg := process_thread_async existing_thread url reprocess w
  let cons := consumerPhase prompt bg.2 w cache
  (bg.1 ++ cons.1, cons.2)

/-- `validate_request_parameters` (app.py lines 143-165).  The caller
passes already-stripped fields, so `not prompt or not prompt.strip()`
is equivalent to the stripped prompt being empty. -/
def validate_request_parameters (prompt url existing_thread : String) : Option String :=
  if pyStrip prompt = "" then some "Prompt is required"
  else if url = "" ∧ existing_thread = "" then some "Either URL or existing thread must be provided"
  else if url ≠ "" ∧ existing_thread ≠ "" then some "Cannot specify both URL and existing thread"
  else none

/-- The body of a `/ask` request; `none` for `request.get_json()`
returning nothing. -/
structure AskData where
  prompt : String
  url : String
  existing_thread : String
  reprocess : Bool

/-- Outcome of a route handler: a plain response with an HTTP status,
or the streamed (status 200) response with its chunk list. -/
inductive AskResult where
  | resp (status : Nat) (body : String)
  | stream (lines : List String)
deriving DecidableEq

/-- The `/ask` route handler (app.py lines 286-548): the ordered
validation gate, then the streaming response.  The second component is
the query-processor cache after the request completes. -/
def ask (data : Option AskData) (w : World) (cache : QueryProcessorCache) :
    AskResult × QueryProcessorCache :=
  match data with
  | none => (.resp 400 "Error: No JSON data provided", cache)
  | some d =>
    let prompt := pyStrip d.prompt
    let url := pyStrip d.url
    let existing_thread := pyStrip d.existing_thread
    let reprocess := d.reprocess
    match validate_request_parameters prompt url existing_thread with
    | some err => (.resp 400 ("Error: " ++ err), cache)
    | none =>
      if existing_thread ≠ "" ∧ url ≠ "" then
        (.resp 400 "Error: Cannot provide URL when using existing thread. Delete and recreate thread to use new URL.",
         cache)
      else if url ≠ "" ∧ reprocess then
        (.resp 400 "Error: Cannot reprocess when creating new thread from URL.", cache)
      else if existing_thread ≠ "" ∧ ¬ w.validate_thread_key existing_thread then
        (.resp 400 "Error: Invalid thread key", cache)
      else
        let r := generate_response prompt existing_thread url reprocess w cache
        (.stream r.1, r.2)

/-- The `/delete_thread` route handler (app.py lines 551-585): status,
plain-text body, and the cache after the request.  On success the
entire processor cache is cleared (line 572). -/
def delete_thread (data : Option String) (w : World) (cache : QueryProcessorCache) :
    (Nat × String) × QueryProcessorCache :=
  match data with
  | none => ((400, "Error: No JSON data provided"), cache)
  | some raw =>
    let thread_key := pyStrip raw
    if thread_key = "" then ((400, "Error: thread_key is required"), cache)
    else if ¬ w.validate_thread_key thread_key then ((400, "Error: Invalid thread key"), cache)
    else
      match w.deleteThread thread_key with
      | .error e => ((500, "Error: " ++ e), cache)
      | .ok true =>
        ((200, "Thread '" ++ thread_key ++ "' deleted successfully"), cache.clear)
      | .ok false => ((404, "Error: Thread not found"), cache)

/-! ### Lemmas about the association-list primitives -/

theorem lookupA_isSome_iff (l : List (String × Nat)) (k : String) :
    (lookupA l k).isSome ↔ k ∈ l.map Prod.fst := by
  induction l with
  | nil => simp [lookupA]
  | cons kv rest ih =>
    obtain ⟨a, v⟩ := kv
    simp only [lookupA, List.map_cons, List.mem_cons]
    by_cases h : a = k
    · simp [h]
    · rw [if_neg h, ih]
      constructor
      · exact Or.inr
      · rintro (rfl | hm)
        · exact absurd rfl h
        · exact hm

theorem lookupA_eq_none_iff (l : List (String × Nat)) (k : String) :
    lookupA l k = none ↔ k ∉ l.map Prod.fst := by
  rw [← lookupA_isSome_iff, Option.isSome_iff_ne_none]
  tauto

theorem lookupA_append_left {l1 : List (String × Nat)} {k : String} {v : Nat}
    (h : lookupA l1 k = some v) (l2 : List (String × Nat)) :
    lookupA (l1 ++ l2) k = some v := by
  induction l1 with
  | nil => simp [lookupA] at h
  | cons kv rest ih =>
    obtain ⟨a, w⟩ := kv
    by_cases ha : a = k <;> simp_all [lookupA, ha]

theorem lookupA_append_right {l1 : List (String × Nat)} {k : String}
    (h : lookupA l1 k = none) (l2 : List (String × Nat)) :
    lookupA (l1 ++ l2) k = lookupA l2 k := by
  induction l1 with
  | nil => simp [lookupA]
  | cons kv rest ih =>
    obtain ⟨a, w⟩ := kv
    by_cases ha : a = k <;> simp_all [lookupA, ha]

theorem keys_eraseKeyA (l : List (String × Nat)) (k : String) :
    (eraseKeyA l k).map Prod.fst = removeFirst (l.map Prod.fst) k := by
  induction l with
  | nil => simp [eraseKeyA, removeFirst]
  | cons kv rest ih =>
    obtain ⟨a, v⟩ := kv
    by_cases ha : a = k <;> simp [eraseKeyA, removeFirst, ha, ih]

theorem eraseKeyA_append_left {l1 : List (String × Nat)} {k : String}
    (h : k ∈ l1.map Prod.fst) (l2 : List (String × Nat)) :
    eraseKeyA (l1 ++ l2) k = eraseKeyA l1 k ++ l2 := by
  induction l1 with
  | nil => simp at h
  | cons kv rest ih =>
    obtain ⟨a, v⟩ := kv
    by_cases ha : a = k
    · simp [eraseKeyA, ha]
    · simp only [List.map_cons, List.mem_cons] at h
      rcases h with h | h

      · exact absurd h.symm ha
      · simp [eraseKeyA, ha, ih h]

theorem length_eraseKeyA {l : List (String × Nat)} {k : String}
    (h : k ∈ l.map Prod.fst) : (eraseKeyA l k).length + 1 = l.length := by
  induction l with
  | nil => simp at h
  | cons kv rest ih =>
    obtain ⟨a, v⟩ := kv
    by_cases ha : a = k
    · simp [eraseKeyA, ha]
    · simp only [List.map_cons, List.mem_cons] at h
      rcases h with h | h
      · exact absurd h.symm ha
      · simp [eraseKeyA, ha, ih h]

theorem lookupA_eraseKeyA_ne {l : List (String × Nat)} {j k : String} (h : j ≠ k) :
    lookupA (eraseKeyA l k) j = lookupA l j := by
  induction l with
  | nil => simp [eraseKeyA]
  | cons kv rest ih =>
    obtain ⟨a, v⟩ := kv
    simp only [eraseKeyA, lookupA]
    by_cases ha : a = k
    · subst ha
      rw [if_pos rfl, if_neg (fun hkj : a = j => h hkj.symm)]
    · rw [if_neg ha]
      by_cases haj : a = j
      · simp only [lookupA, if_pos haj]
      · simp only [lookupA, if_neg haj]
        exact ih

theorem removeFirst_of_not_mem {l : List String} {k : String} (h : k ∉ l) :
    removeFirst l k = l := by
  induction l with
  | nil => rfl
  | cons a rest ih =>
    simp only [List.mem_cons] at h
    push_neg at h
    simp [removeFirst, (Ne.symm h.1), ih h.2]

theorem mem_of_mem_removeFirst {l : List String} {j k : String}
    (h : j ∈ removeFirst l k) : j ∈ l := by
  induction l with
  | nil => simp [removeFirst] at h
  | cons a rest ih =>
    by_cases ha : a = k
    · simp only [removeFirst, ha, if_pos rfl] at h
      exact List.mem_cons_of_mem _ h
    · simp only [removeFirst, if_neg ha, List.mem_cons] at h
      rcases h with h | h
      · simp [h]
      · exact List.mem_cons_of_mem _ (ih h)

theorem nodup_removeFirst {l : List String} (h : l.Nodup) (k : String) :
    (removeFirst l k).Nodup := by
  induction l with
  | nil => simp [removeFirst]
  | cons a rest ih =>
    simp only [List.nodup_cons] at h
    by_cases ha : a = k
    · simpa [removeFirst, ha] using h.2
    · simp only [removeFirst, if_neg ha, List.nodup_cons]
      exact ⟨fun hmem => h.1 (mem_of_mem_removeFirst hmem), ih h.2⟩

theorem mem_removeFirst_iff {l : List String} (h : l.Nodup) (j k : String) :
    j ∈ removeFirst l k ↔ j ∈ l ∧ j ≠ k := by
  induction l with
  | nil => simp [removeFirst]
  | cons a rest ih =>
    simp only [List.nodup_cons] at h
    by_cases ha : a = k
    · subst ha
      simp only [removeFirst, if_pos rfl, List.mem_cons]
      constructor
      · intro hj
        exact ⟨Or.inr hj, fun hk => h.1 (hk ▸ hj)⟩
      · rintro ⟨hj | hj, hne⟩
        · exact absurd hj hne
        · exact hj
    · simp only [removeFirst, if_neg ha, List.mem_cons, ih h.2]
      constructor
      · rintro (rfl | ⟨hj, hne⟩)
        · exact ⟨Or.inl rfl, fun hk => ha hk⟩
        · exact ⟨Or.inr hj, hne⟩
      · rintro ⟨rfl | hj, hne⟩
        · exact Or.inl rfl
        · exact Or.inr ⟨hj, hne⟩

theorem length_removeFirst_of_mem {l : List String} {k : String} (h : k ∈ l) :
    (removeFirst l k).length + 1 = l.length := by
  induction l with
  | nil => simp at h
  | cons a rest ih =>
    by_cases ha : a = k
    · simp [removeFirst, ha]
    · simp only [List.mem_cons] at h
      rcases h with h | h
      · exact absurd h.symm ha
      · simp [removeFirst, ha, ih h]

theorem lookupA_eraseKeyA_self {l : List (String × Nat)} (h : (l.map Prod.fst).Nodup)
    (k : String) : lookupA (eraseKeyA l k) k = none := by
  rw [lookupA_eq_none_iff, keys_eraseKeyA]
  intro hmem
  exact ((mem_removeFirst_iff h k k).mp hmem).2 rfl

/-! ### `Sync` preservation and the cleanup loop -/

theorem Sync_hit {o : List String} {c : List (String × Nat)} {k : String}
    (hs : Sync o c) (hk : k ∈ c.map Prod.fst) :
    Sync (removeFirst o k ++ [k]) c := by
  obtain ⟨h1, h2, h3, h4⟩ := hs
  refine ⟨?_, h2, ?_, ?_⟩
  · rw [List.nodup_append]
    refine ⟨nodup_removeFirst h1 k, List.nodup_singleton k, ?_⟩
    intro a ha hb
    simp only [List.mem_singleton] at hb
    exact ((mem_removeFirst_iff h1 a k).mp ha).2 hb
  · intro j hj
    simp only [List.mem_append, List.mem_singleton] at hj
    rcases hj with hj | rfl
    · exact h3 j (mem_of_mem_removeFirst hj)
    · exact hk
  · intro j hj
    simp only [List.mem_append, List.mem_singleton]
    by_cases hjk : j = k
    · exact Or.inr hjk
    · exact Or.inl ((mem_removeFirst_iff h1 j k).mpr ⟨h4 j hj, hjk⟩)

theorem Sync_insert {o : List String} {c : List (String × Nat)} {k : String} {p : Nat}
    (hs : Sync o c) (hk : lookupA c k = none) :
    Sync (o ++ [k]) (c ++ [(k, p)]) := by
  obtain ⟨h1, h2, h3, h4⟩ := hs
  have hknot : k ∉ c.map Prod.fst := (lookupA_eq_none_iff c k).mp hk
  have hko : k ∉ o := fun h => hknot (h3 k h)
  refine ⟨?_, ?_, ?_, ?_⟩
  · rw [List.nodup_append]
    exact ⟨h1, List.nodup_singleton k, fun a ha hb => by
      simp only [List.mem_singleton] at hb; exact hko (hb ▸ ha)⟩
  · rw [List.map_append, List.nodup_append]
    exact ⟨h2, by simp, fun a ha hb => by
      simp only [List.map_cons, List.map_nil, List.mem_singleton] at hb
      exact hknot (hb ▸ ha)⟩
  · intro j hj
    rw [List.map_append]
    simp only [List.mem_append, List.mem_singleton] at hj ⊢
    rcases hj with hj | rfl
    · exact Or.inl (h3 j hj)
    · simp
  · intro j hj
    rw [List.map_append] at hj
    simp only [List.mem_append, List.mem_singleton] at hj ⊢
    rcases hj with hj | hj
    · exact Or.inl (h4 j hj)
    · simp only [List.map_cons, List.map_nil, List.mem_singleton] at hj
      exact Or.inr hj

theorem cleanupLoop_nil {m : Nat} {c : List (String × Nat)} :
    cleanupLoop m [] c = ([], c) := by
  have e : cleanupLoop m [] c = if c.length ≤ m then ([], c) else ([], c) := rfl
  rw [e]
  split <;> rfl

theorem cleanupLoop_cons_eq {m : Nat} {lru : String} {rest : List String}
    {c : List (String × Nat)} :
    cleanupLoop m (lru :: rest) c =
      if c.length ≤ m then (lru :: rest, c)
      else cleanupLoop m rest
        (if (lookupA c lru).isSome then eraseKeyA c lru else c) := rfl

theorem cleanupLoop_of_le {m : Nat} {o : List String} {c : List (String × Nat)}
    (h : c.length ≤ m) : cleanupLoop m o c = (o, c) := by
  cases o with
  | nil => exact cleanupLoop_nil
  | cons lru rest => rw [cleanupLoop_cons_eq, if_pos h]

theorem cleanupLoop_pop {m : Nat} {lru : String} {rest : List String}
    {c : List (String × Nat)} (h : ¬ c.length ≤ m) :
    cleanupLoop m (lru :: rest) c =
      cleanupLoop m rest (if (lookupA c lru).isSome then eraseKeyA c lru else c) := by
  rw [cleanupLoop_cons_eq, if_neg h]

/-- The cleanup loop, started from synchronised state, returns a
synchronised state of size at most the capacity, drops only a prefix of
the recency order, and leaves the lookup of every surviving key
unchanged. -/
theorem cleanupLoop_spec (m : Nat) :
    ∀ (o : List String) (c : List (String × Nat)), Sync o c →
      Sync (cleanupLoop m o c).1 (cleanupLoop m o c).2 ∧
      (cleanupLoop m o c).2.length ≤ m ∧
      (∃ d, (cleanupLoop m o c).1 = o.drop d) ∧
      (∀ j ∈ (cleanupLoop m o c).1, lookupA (cleanupLoop m o c).2 j = lookupA c j) := by
  intro o
  induction o with
  | nil =>
    intro c hs
    rw [cleanupLoop_nil]
    have hc : c = [] := by
      obtain ⟨_, _, _, h4⟩ := hs
      cases c with
      | nil => rfl
      | cons kv rest => exact absurd (h4 kv.1 (by simp)) (by simp)
    subst hc
    exact ⟨hs, by simp, ⟨0, rfl⟩, by simp⟩
  | cons lru rest ih =>
    intro c hs
    by_cases hle : c.length ≤ m
    · rw [cleanupLoop_of_le hle]
      exact ⟨hs, hle, ⟨0, rfl⟩, fun j _ => rfl⟩
    · rw [cleanupLoop_pop hle]
      obtain ⟨h1, h2, h3, h4⟩ := hs
      have hmem : lru ∈ c.map Prod.fst := h3 lru (by simp)
      have hsome : (lookupA c lru).isSome := (lookupA_isSome_iff c lru).mpr hmem
      rw [if_pos hsome]
      have hsync' : Sync rest (eraseKeyA c lru) := by
        refine ⟨(List.nodup_cons.mp h1).2, ?_, ?_, ?_⟩
        · rw [keys_eraseKeyA]
          exact nodup_removeFirst h2 lru
        · intro k hk
          rw [keys_eraseKeyA, mem_removeFirst_iff h2]
          refine ⟨h3 k (by simp [hk]), ?_⟩
          intro hkl
          subst hkl
          exact (List.nodup_cons.mp h1).1 hk
        · intro k hk
          rw [keys_eraseKeyA, mem_removeFirst_iff h2] at hk
          have hm := h4 k hk.1
          simp only [List.mem_cons] at hm
          rcases hm with hm | hm
          · exact absurd hm hk.2
          · exact hm
      obtain ⟨s1, s2, s3, s4⟩ := ih (eraseKeyA c lru) hsync'
      refine ⟨s1, s2, ?_, ?_⟩
      · obtain ⟨d, hd⟩ := s3
        exact ⟨d + 1, by simpa using hd⟩
      · intro j hj
        rw [s4 j hj]
        have hjr : j ∈ rest := by
          obtain ⟨d, hd⟩ := s3
          rw [hd] at hj
          exact List.mem_of_mem_drop hj
        have hjne : j ≠ lru := fun h => (List.nodup_cons.mp h1).1 (h ▸ hjr)
        exact lookupA_eraseKeyA_ne hjne

/-! ### Behaviour of `QueryProcessorCache.get` -/

theorem get_hit {c : QueryProcessorCache} {k : String} {p : Nat}
    (h : lookupA c._cache k = some p) (cf : Option String) :
    c.get k cf =
      .ok (p, { c with _access_order := removeFirst c._access_order k ++ [k] }) := by
  unfold QueryProcessorCache.get
  rw [h]

theorem get_miss_ctor_raises {c : QueryProcessorCache} {k e : String}
    (h : lookupA c._cache k = none) : c.get k (some e) = .error e := by
  unfold QueryProcessorCache.get
  rw [h]

theorem get_miss {c : QueryProcessorCache} {k : String}
    (h : lookupA c._cache k = none) :
    c.get k none =
      .ok (c.nextId,
        QueryProcessorCache.cleanup_if_needed
          { c with
              _cache := c._cache ++ [(k, c.nextId)],
              _access_order := c._access_order ++ [k],
              nextId := c.nextId + 1 }) := by
  unfold QueryProcessorCache.get
  rw [h]

/-- Every successful `get` preserves well-formedness; the resulting
size is either unchanged (hit) or within capacity (miss, after
cleanup). -/
theorem get_preserves {c : QueryProcessorCache} (k : String) (hwf : cacheWf c) :
    ∃ p c', c.get k none = .ok (p, c') ∧ cacheWf c' ∧ c'._max_size = c._max_size ∧
      (c'._cache.length = c._cache.length ∨ c'._cache.length ≤ c._max_size) := by
  cases hlk : lookupA c._cache k with
  | some p =>
    refine ⟨p, _, get_hit hlk none, ?_, rfl, Or.inl rfl⟩
    have hk : k ∈ c._cache.map Prod.fst :=
      (lookupA_isSome_iff _ _).mp (by rw [hlk]; rfl)
    exact Sync_hit hwf hk
  | none =>
    rw [get_miss hlk]
    refine ⟨c.nextId, _, rfl, ?_, rfl, Or.inr ?_⟩
    · exact (cleanupLoop_spec c._max_size _ _ (Sync_insert hwf hlk)).1
    · exact (cleanupLoop_spec c._max_size _ _ (Sync_insert hwf hlk)).2.1

/-- A miss on a full cache evicts exactly the head of `_access_order`
— the least recently promoted key — and nothing else. -/
theorem get_full_evicts {c : QueryProcessorCache} {k : String}
    (hwf : cacheWf c) (hmiss : lookupA c._cache k = none)
    (hfull : c._cache.length = c._max_size) (hpos : 0 < c._max_size) :
    ∃ lru restO c', c._access_order = lru :: restO ∧
      c.get k none = .ok (c.nextId, c') ∧
      c'._access_order = restO ++ [k] ∧
      lookupA c'._cache lru = none ∧
      lookupA c'._cache k = some c.nextId ∧
      (∀ j, j ≠ lru → j ≠ k → lookupA c'._cache j = lookupA c._cache j) ∧
      c'._cache.length = c._max_size := by
  obtain ⟨h1, h2, h3, h4⟩ := hwf
  have hcne : c._cache ≠ [] := by
    intro hc
    rw [hc] at hfull
    simp at hfull
    omega
  have hone : c._access_order ≠ [] := by
    intro h0
    cases hcc : c._cache with
    | nil => exact hcne hcc
    | cons kv rest =>
      have hm : kv.1 ∈ c._cache.map Prod.fst := by rw [hcc]; simp
      have := h4 kv.1 hm
      rw [h0] at this
      simp at this
  obtain ⟨lru, restO, horder⟩ := List.exists_cons_of_ne_nil hone
  have hlru_keys : lru ∈ c._cache.map Prod.fst := h3 lru (by rw [horder]; simp)
  have hkne : k ≠ lru := by
    intro h
    exact (lookupA_eq_none_iff _ _).mp hmiss (h ▸ hlru_keys)
  have hknot : k ∉ c._cache.map Prod.fst := (lookupA_eq_none_iff _ _).mp hmiss
  -- the inserted state
  set nid := c.nextId with hnid
  have hcache1keys : lru ∈ (c._cache ++ [(k, nid)]).map Prod.fst := by
    rw [List.map_append]
    exact List.mem_append_left _ hlru_keys
  have hlen1 : (c._cache ++ [(k, nid)]).length = c._max_size + 1 := by
    simp [hfull]
  have hnotle : ¬ (c._cache ++ [(k, nid)]).length ≤ c._max_size := by omega
  have hsome1 : (lookupA (c._cache ++ [(k, nid)]) lru).isSome :=
    (lookupA_isSome_iff _ _).mpr hcache1keys
  have herase : eraseKeyA (c._cache ++ [(k, nid)]) lru = eraseKeyA c._cache lru ++ [(k, nid)] :=
    eraseKeyA_append_left hlru_keys _
  have herlen : (eraseKeyA (c._cache ++ [(k, nid)]) lru).length = c._max_size := by
    have := length_eraseKeyA hcache1keys
    omega
  have hloop : cleanupLoop c._max_size (c._access_order ++ [k]) (c._cache ++ [(k, nid)]) =
      (restO ++ [k], eraseKeyA (c._cache ++ [(k, nid)]) lru) := by
    rw [horder]
    rw [List.cons_append]
    rw [cleanupLoop_pop hnotle, if_pos hsome1]
    exact cleanupLoop_of_le (by omega)
  refine ⟨lru, restO, _, horder, get_miss hmiss, ?_, ?_, ?_, ?_, ?_⟩
  · show (cleanupLoop c._max_size (c._access_order ++ [k]) (c._cache ++ [(k, nid)])).1 = _
    rw [hloop]
  · show lookupA (cleanupLoop c._max_size (c._access_order ++ [k]) (c._cache ++ [(k, nid)])).2 lru = none
    rw [hloop, herase]
    rw [lookupA_append_right (lookupA_eraseKeyA_self h2 lru)]
    simp [lookupA, hkne]
  · show lookupA (cleanupLoop c._max_size (c._access_order ++ [k]) (c._cache ++ [(k, nid)])).2 k = some nid
    rw [hloop, herase]
    have hker : lookupA (eraseKeyA c._cache lru) k = none := by
      rw [lookupA_eq_none_iff, keys_eraseKeyA]
      intro hmem
      exact hknot (mem_of_mem_removeFirst hmem)
    rw [lookupA_append_right hker]
    simp [lookupA]
  · intro j hjl hjk
    show lookupA (cleanupLoop c._max_size (c._access_order ++ [k]) (c._cache ++ [(k, nid)])).2 j = _
    rw [hloop, herase]
    cases hcj : lookupA c._cache j with
    | some v =>
      rw [lookupA_append_left (by rw [lookupA_eraseKeyA_ne hjl]; exact hcj)]
    | none =>
      have hjer : lookupA (eraseKeyA c._cache lru) j = none := by
        rw [lookupA_eraseKeyA_ne hjl]
        exact hcj
      rw [lookupA_append_right hjer]
      simp only [lookupA]
      rw [if_neg (fun h : k = j => hjk h.symm)]
  · show (cleanupLoop c._max_size (c._access_order ++ [k]) (c._cache ++ [(k, nid)])).2.length = _
    rw [hloop]
    exact herlen

/-- After a successful `get` from a within-capacity well-formed state
with positive capacity, the requested key is resident and maps to the
returned handle. -/
theorem get_mem_after {c : QueryProcessorCache} (k : String) (hwf : cacheWf c)
    (hle : c._cache.length ≤ c._max_size) (hpos : 0 < c._max_size) :
    ∃ p c', c.get k none = .ok (p, c') ∧ lookupA c'._cache k = some p := by
  cases hlk : lookupA c._cache k with
  | some p => exact ⟨p, _, get_hit hlk none, hlk⟩
  | none =>
    rcases Nat.lt_or_ge c._cache.length c._max_size with hlt | hge
    · rw [get_miss hlk]
      refine ⟨c.nextId, _, rfl, ?_⟩
      show lookupA (cleanupLoop c._max_size (c._access_order ++ [k])
        (c._cache ++ [(k, c.nextId)])).2 k = some c.nextId
      rw [cleanupLoop_of_le (by simp; omega)]
      rw [lookupA_append_right hlk]
      simp [lookupA]
    · have hfull : c._cache.length = c._max_size := Nat.le_antisymm hle hge
      obtain ⟨lru, restO, c', _, hget, _, _, hk, _, _⟩ :=
        get_full_evicts hwf hlk hfull hpos
      exact ⟨c.nextId, c', hget, hk⟩

/-- The invariant carried along a `foldl` of `getStep`. -/
theorem runGets_invariant (n : Nat) (ks : List String) :
    ∀ (c : QueryProcessorCache), cacheWf c → c._max_size = n → c._cache.length ≤ n →
      cacheWf (ks.foldl getStep c) ∧ (ks.foldl getStep c)._max_size = n ∧
        (ks.foldl getStep c)._cache.length ≤ n := by
  induction ks with
  | nil => intro c h1 h2 h3; exact ⟨h1, h2, h3⟩
  | cons k ks ih =>
    intro c h1 h2 h3
    simp only [List.foldl_cons]
    obtain ⟨p, c', hget, hwf', hmax, hlen⟩ := get_preserves k h1
    have hstep : getStep c k = c' := by
      unfold getStep
      rw [hget]
    rw [hstep]
    refine ih c' hwf' (hmax.trans h2) ?_
    rcases hlen with h | h
    · omega
    · omega

theorem cacheWf_initCache (n : Nat) : cacheWf (initCache n) := by
  refine ⟨List.nodup_nil, ?_, ?_, ?_⟩ <;> simp [initCache]

/-! ### Example cache states for the witnesses -/

/-- A well-formed cache of capacity 2 holding one entry. -/
def cacheEx1 : QueryProcessorCache :=
  { _cache := [("a", 0)], _access_order := ["a"], _max_size := 2, nextId := 1 }

/-- `cacheEx1` after a miss on `"b"`. -/
def cacheEx1b : QueryProcessorCache :=
  { _cache := [("a", 0), ("b", 1)], _access_order := ["a", "b"], _max_size := 2, nextId := 2 }

/-- A well-formed cache at capacity (2 entries, capacity 2). -/
def cacheExFull : QueryProcessorCache :=
  { _cache := [("a", 0), ("b", 1)], _access_order := ["a", "b"], _max_size := 2, nextId := 2 }

/-! ### Claim theorems for the processor cache -/

/-- C2: after any sequence of `QueryProcessorCache.get` calls the number
of resident entries never exceeds the configured capacity `_max_size`;
a hit promotes the key to most-recently-used (recency updated on every
successful call); and an insertion into a full cache evicts exactly the
least recently promoted key (the head of `_access_order`), keeping all
other entries. -/
theorem cache_capacity_and_lru_eviction (n : Nat) (ks : List String)
    (c : QueryProcessorCache) (hwf : cacheWf c) (k : String) :
    (runGets n ks).size ≤ n
    ∧ (∀ p, lookupA c._cache k = some p →
        c.get k none =
          .ok (p, { c with _access_order := removeFirst c._access_order k ++ [k] }))
    ∧ (lookupA c._cache k = none → c._cache.length = c._max_size → 0 < c._max_size →
        ∃ lru restO c', c._access_order = lru :: restO ∧
          c.get k none = .ok (c.nextId, c') ∧
          c'._access_order = restO ++ [k] ∧
          lookupA c'._cache lru = none ∧
          lookupA c'._cache k = some c.nextId ∧
          (∀ j, j ≠ lru → j ≠ k → lookupA c'._cache j = lookupA c._cache j)) := by
  refine ⟨?_, ?_, ?_⟩
  · exact (runGets_invariant n ks (initCache n) (cacheWf_initCache n) rfl
      (by simp [initCache])).2.2
  · intro p hlk
    exact get_hit hlk none
  · intro hmiss hfull hpos
    obtain ⟨lru, restO, c', e1, e2, e3, e4, e5, e6, _⟩ :=
      get_full_evicts hwf hmiss hfull hpos
    exact ⟨lru, restO, c', e1, e2, e3, e4, e5, e6⟩

theorem cache_capacity_and_lru_eviction_witness :
    (runGets 2 ["a", "b", "c", "a"]).size ≤ 2
    ∧ cacheEx1.get "a" none =
        .ok (0, { cacheEx1 with
                    _access_order := removeFirst cacheEx1._access_order "a" ++ ["a"] })
    ∧ (∃ lru restO c', cacheExFull._access_order = lru :: restO ∧
        cacheExFull.get "c" none = .ok (cacheExFull.nextId, c') ∧
        c'._access_order = restO ++ ["c"] ∧
        lookupA c'._cache lru = none ∧
        lookupA c'._cache "c" = some cacheExFull.nextId ∧
        (∀ j, j ≠ lru → j ≠ "c" → lookupA c'._cache j = lookupA cacheExFull._cache j)) := by
  refine ⟨(cache_capacity_and_lru_eviction 2 ["a", "b", "c", "a"] cacheEx1
      (by decide) "a").1, ?_, ?_⟩
  · exact (cache_capacity_and_lru_eviction 2 [] cacheEx1 (by decide) "a").2.1 0 (by decide)
  · exact (cache_capacity_and_lru_eviction 2 [] cacheExFull (by decide) "c").2.2
      (by decide) (by decide) (by decide)

/-- C7: when constructing the engine on a cache miss raises, the
exception propagates out of `get` and the cache is untouched — the
requested key is resident in neither the map nor the recency order. -/
theorem cache_construction_failure_no_partial_entry (c : QueryProcessorCache)
    (k e : String) (hwf : cacheWf c) (hmiss : lookupA c._cache k = none) :
    c.get k (some e) = .error e ∧ lookupA c._cache k = none ∧ k ∉ c._access_order := by
  refine ⟨get_miss_ctor_raises hmiss, hmiss, ?_⟩
  intro hmem
  exact (lookupA_eq_none_iff _ _).mp hmiss (hwf.2.2.1 k hmem)

theorem cache_construction_failure_no_partial_entry_witness :
    cacheEx1.get "b" (some "boom") = .error "boom"
    ∧ lookupA cacheEx1._cache "b" = none ∧ "b" ∉ cacheEx1._access_order :=
  cache_construction_failure_no_partial_entry cacheEx1 "b" "boom" (by decide) (by decide)

/-- C9: two consecutive `get` calls for the same key (from a
well-formed, within-capacity state with positive capacity) return the
same handle, and the second call leaves the cache map — hence the cache
size — unchanged. -/
theorem cache_get_idempotent (c : QueryProcessorCache) (k : String) (hwf : cacheWf c)
    (hle : c._cache.length ≤ c._max_size) (hpos : 0 < c._max_size) :
    ∃ p c1 c2, c.get k none = .ok (p, c1) ∧ c1.get k none = .ok (p, c2) ∧
      c2._cache = c1._cache ∧ c2.size = c1.size := by
  obtain ⟨p, c1, hget, hk⟩ := get_mem_after k hwf hle hpos
  exact ⟨p, c1, _, hget, get_hit hk none, rfl, rfl⟩

theorem cache_get_idempotent_witness :
    ∃ p c1 c2, cacheEx1.get "b" none = .ok (p, c1) ∧ c1.get "b" none = .ok (p, c2) ∧
      c2._cache = c1._cache ∧ c2.size = c1.size :=
  cache_get_idempotent cacheEx1 "b" (by decide) (by decide) (by decide)

/-- C10: after every cache operation (`get` or `clear`) from a
well-formed state, the recency list holds each key at most once and its
key set is exactly the key set of the cache map. -/
theorem cache_recency_list_consistency (c : QueryProcessorCache) (hwf : cacheWf c) :
    (∀ k p c', c.get k none = .ok (p, c') →
      c'._access_order.Nodup ∧ ∀ j, j ∈ c'._access_order ↔ j ∈ cacheKeys c')
    ∧ ((c.clear)._access_order.Nodup ∧
        ∀ j, j ∈ (c.clear)._access_order ↔ j ∈ cacheKeys (c.clear)) := by
  constructor
  · intro k p c' hget
    obtain ⟨p0, c0, hget0, hwf0, _, _⟩ := get_preserves k hwf
    rw [hget0] at hget
    injection hget with hpair
    have hc : c0 = c' := congrArg Prod.snd hpair
    subst hc
    obtain ⟨hw1, _, hw3, hw4⟩ := hwf0
    exact ⟨hw1, fun j => ⟨fun hj => hw3 j hj, fun hj => hw4 j hj⟩⟩
  · simp [QueryProcessorCache.clear, cacheKeys]

theorem cache_recency_list_consistency_witness :
    ((cacheEx1b._access_order.Nodup ∧
        ∀ j, j ∈ cacheEx1b._access_order ↔ j ∈ cacheKeys cacheEx1b)
     ∧ ((cacheEx1.clear)._access_order.Nodup ∧
        ∀ j, j ∈ (cacheEx1.clear)._access_order ↔ j ∈ cacheKeys (cacheEx1.clear))) :=
  ⟨(cache_recency_list_consistency cacheEx1 (by decide)).1 "b" 1 cacheEx1b rfl,
   (cache_recency_list_consistency cacheEx1 (by decide)).2⟩

/-! ### Characterisation of `pyMax` on numeric keys -/

/-- The pure content of the `max` loop when every key is numeric:
replace the current maximum only on strictly greater. -/
def goM (kf : α → Int) (cur : α) : List α → α
  | [] => cur
  | y :: ys => goM kf (if kf cur < kf y then y else cur) ys

theorem pyGt_num (a b : Int) : pyGt (.num a) (.num b) = .ok (decide (b < a)) := rfl

theorem pyMaxGo_num {key : α → Except String JVal} {kf : α → Int}
    (ys : List α) (cur : α) (h : ∀ y ∈ ys, key y = .ok (.num (kf y))) :
    pyMaxGo key cur (.num (kf cur)) ys = .ok (goM kf cur ys) := by
  induction ys generalizing cur with
  | nil => rfl
  | cons y ys ih =>
    have hy : key y = .ok (.num (kf y)) := h y (List.mem_cons_self y ys)
    have hrest : ∀ z ∈ ys, key z = .ok (.num (kf z)) :=
      fun z hz => h z (List.mem_cons_of_mem y hz)
    by_cases hc : kf cur < kf y
    · simp [pyMaxGo, hy, pyGt_num, hc, goM, ih y hrest]
    · simp [pyMaxGo, hy, pyGt_num, hc, goM, ih cur hrest]

theorem pyMax_num {key : α → Except String JVal} {kf : α → Int}
    (x0 : α) (xs : List α) (h : ∀ y ∈ x0 :: xs, key y = .ok (.num (kf y))) :
    pyMax key (x0 :: xs) = .ok (goM kf x0 xs) := by
  have h0 : key x0 = .ok (.num (kf x0)) := h x0 (List.mem_cons_self x0 xs)
  simp only [pyMax, h0]
  exact pyMaxGo_num xs x0 (fun y hy => h y (List.mem_cons_of_mem x0 hy))

theorem le_foldl_max (l : List Int) (a : Int) : a ≤ l.foldl max a := by
  induction l generalizing a with
  | nil => exact le_refl a
  | cons b l ih => exact le_trans (le_max_left a b) (ih (max a b))

/-- `goM` picks exactly the first element attaining the maximal key:
the Python `max` tie-break is first-encountered order. -/
theorem goM_find (kf : α → Int) :
    ∀ (xs : List α) (cur : α),
      (cur :: xs).find? (fun x => kf x == (xs.map kf).foldl max (kf cur)) =
        some (goM kf cur xs) := by
  intro xs
  induction xs with
  | nil =>
    intro cur
    rw [List.find?_cons_of_pos _ (by simp)]
    simp [goM]
  | cons y ys ih =>
    intro cur
    have hfold : ((y :: ys).map kf).foldl max (kf cur) =
        (ys.map kf).foldl max (max (kf cur) (kf y)) := by
      simp [List.foldl_cons]
    by_cases hc : kf cur < kf y
    · -- the new current element is y; cur sits strictly below the maximum
      have hkey : max (kf cur) (kf y) = kf y := max_eq_right (le_of_lt hc)
      have hM : ((y :: ys).map kf).foldl max (kf cur) = (ys.map kf).foldl max (kf y) := by
        rw [hfold, hkey]
      have hyle : kf y ≤ (ys.map kf).foldl max (kf y) := le_foldl_max _ _
      rw [hM]
      rw [List.find?_cons_of_neg _ (by simp only [beq_iff_eq]; intro hEq; omega)]
      rw [ih y]
      simp [goM, if_pos hc]
    · -- cur keeps the lead
      have hkey : max (kf cur) (kf y) = kf cur := max_eq_left (le_of_not_lt hc)
      have hM : ((y :: ys).map kf).foldl max (kf cur) = (ys.map kf).foldl max (kf cur) := by
        rw [hfold, hkey]
      have hcurle : kf cur ≤ (ys.map kf).foldl max (kf cur) := le_foldl_max _ _
      have hih := ih cur
      rw [hM]
      by_cases hcur : kf cur = (ys.map kf).foldl max (kf cur)
      · rw [List.find?_cons_of_pos _ (by simp only [beq_iff_eq]; exact hcur)]
        rw [List.find?_cons_of_pos _ (by simp only [beq_iff_eq]; exact hcur)] at hih
        simp only [goM, if_neg hc]
        exact hih
      · have hyne : kf y ≠ (ys.map kf).foldl max (kf cur) := by
          have : kf y ≤ kf cur := le_of_not_lt hc
          omega
        rw [List.find?_cons_of_neg _ (by simp only [beq_iff_eq]; exact hcur)]
        rw [List.find?_cons_of_neg _ (by simp only [beq_iff_eq]; exact hyne)]
        rw [List.find?_cons_of_neg _ (by simp only [beq_iff_eq]; exact hcur)] at hih
        simp only [goM, if_neg hc]
        exact hih

theorem goM_mem (kf : α → Int) (xs : List α) (cur : α) :
    goM kf cur xs ∈ cur :: xs := by
  induction xs generalizing cur with
  | nil => simp [goM]
  | cons y ys ih =>
    simp only [goM]
    by_cases hc : kf cur < kf y
    · rw [if_pos hc]
      have := ih y
      simp only [List.mem_cons] at this ⊢
      tauto
    · rw [if_neg hc]
      have := ih cur
      simp only [List.mem_cons] at this ⊢
      tauto

/-! ### Structural lemmas about the streamed response -/

/-- The stream is the background-phase messages followed by the
consumer (query-analysis/answer) phase. -/
theorem generate_response_decomp (prompt existing_thread url : String) (reprocess : Bool)
    (w : World) (c : QueryProcessorCache) :
    (generate_response prompt existing_thread url reprocess w c).1 =
      (process_thread_async existing_thread url reprocess w).1 ++
      (consumerPhase prompt (process_thread_async existing_thread url reprocess w).2 w c).1 :=
  rfl

/-- Whenever a thread key was resolved, the consumer phase opens with
the query-analysis marker line. -/
theorem consumerPhase_head (prompt tk : String) (w : World) (c : QueryProcessorCache) :
    ((consumerPhase prompt (some tk) w c).1).head? =
      some "Analyzing query and searching thread...\n\n" := by
  unfold consumerPhase
  cases hg : c.get tk (w.ctorFails tk) with
  | error e => simp [hg]
  | ok pc =>
    obtain ⟨p, c'⟩ := pc
    cases hq : w.processQuery tk prompt with
    | error e => simp [hg, hq]
    | ok qr =>
      cases herr : qr.error with
      | some err => simp [hg, hq, herr]
      | none =>
        cases hrs : qr.response_stream with
        | none => simp [hg, hq, herr, hrs]
        | some cs =>
          obtain ⟨chunks, exc⟩ := cs
          cases exc <;> simp [hg, hq, herr, hrs]

/-! ### Concrete worlds for witnesses and counterexamples -/

/-- A world in which every thread directory exists, deletion succeeds
exactly for key `"t"`, key `"bad"` fails validation, and the
collaborators are otherwise inert. -/
def worldStub : World :=
  { threadExists := fun _ => true,
    validate_thread_key := fun k => k != "bad",
    normalize_url := fun u => u,
    processThread := fun _ => ([], .error "unused"),
    reprocessThread := fun _ => ([], .error "unused"),
    ctorFails := fun _ => none,
    processQuery := fun _ _ => .error "unused",
    deleteThread := fun k => .ok (k == "t") }

/-! ### `pyStrip` is idempotent (a stripped string re-strips to itself) -/

theorem dropWhile_dropWhile_self (p : α → Bool) (l : List α) :
    (l.dropWhile p).dropWhile p = l.dropWhile p := by
  induction l with
  | nil => rfl
  | cons a l ih =>
    by_cases h : p a
    · simp [List.dropWhile_cons, h, ih]
    · simp [List.dropWhile_cons, h]

theorem dropWhile_head_not (p : α → Bool) (l : List α) :
    ∀ a rest, l.dropWhile p = a :: rest → ¬ p a := by
  induction l with
  | nil => intro a rest h; simp at h
  | cons b l ih =>
    intro a rest h
    by_cases hb : p b
    · rw [List.dropWhile_cons, if_pos hb] at h
      exact ih a rest h
    · rw [List.dropWhile_cons, if_neg hb] at h
      injection h with h1 _
      exact fun hpa => hb (h1 ▸ hpa)

theorem stripChars_idem (l : List Char) : stripChars (stripChars l) = stripChars l := by
  unfold stripChars
  generalize hA : l.dropWhile Char.isWhitespace = A
  generalize hB : A.reverse.dropWhile Char.isWhitespace = B
  have h1 : B.reverse.dropWhile Char.isWhitespace = B.reverse := by
    cases hBr : B.reverse with
    | nil => rfl
    | cons a rest =>
      have hsplit : A.reverse.takeWhile Char.isWhitespace ++ B = A.reverse := by
        rw [← hB]
        exact List.takeWhile_append_dropWhile _ _
      have hAeq : B.reverse ++ (A.reverse.takeWhile Char.isWhitespace).reverse = A := by
        have h' := congrArg List.reverse hsplit
        rw [List.reverse_append, List.reverse_reverse] at h'
        exact h'
      have hAcons : A = a :: (rest ++ (A.reverse.takeWhile Char.isWhitespace).reverse) := by
        conv_lhs => rw [← hAeq]
        rw [hBr]
        simp
      have hnot : ¬ Char.isWhitespace a := by
        apply dropWhile_head_not Char.isWhitespace l a
          (rest ++ (A.reverse.takeWhile Char.isWhitespace).reverse)
        rw [hA]
        exact hAcons
      rw [List.dropWhile_cons, if_neg hnot]
  rw [h1, List.reverse_reverse, ← hB, dropWhile_dropWhile_self]

theorem pyStrip_idem (s : String) : pyStrip (pyStrip s) = pyStrip s :=
  congrArg String.mk (stripChars_idem s.data)

/-! ### Claim theorems for the HTTP boundary -/

/-- C4: a `/ask` request supplying both `url` and `existing_thread`, or
`reprocess=true` together with `url`, is answered with status 400 and
the processor cache is not mutated (no background work starts). -/
theorem ask_conflicting_modes_rejected (d : AskData) (w : World) (c : QueryProcessorCache)
    (h : (pyStrip d.url ≠ "" ∧ pyStrip d.existing_thread ≠ "") ∨
         (pyStrip d.url ≠ "" ∧ d.reprocess = true)) :
    (∃ b, (ask (some d) w c).1 = .resp 400 b) ∧ (ask (some d) w c).2 = c := by
  have hps : pyStrip "" = "" := rfl
  unfold ask
  by_cases hp : pyStrip d.prompt = ""
  · simp [validate_request_parameters, hp, hps]
  · rcases h with ⟨hu, he⟩ | ⟨hu, hr⟩
    · simp [validate_request_parameters, pyStrip_idem, hp, hu, he]
    · by_cases he : pyStrip d.existing_thread = ""
      · simp [validate_request_parameters, pyStrip_idem, hp, hu, he, hr]
      · simp [validate_request_parameters, pyStrip_idem, hp, hu, he]

/-- A `/ask` body supplying both `url` and `existing_thread`. -/
def askBothModes : AskData := ⟨"q", "http://u", "t", false⟩

/-- A `/ask` body supplying `reprocess=true` together with `url`. -/
def askUrlReprocess : AskData := ⟨"q", "http://u", "", true⟩

theorem ask_conflicting_modes_rejected_witness :
    ((∃ b, (ask (some askBothModes) worldStub cacheEx1).1 = .resp 400 b) ∧
      (ask (some askBothModes) worldStub cacheEx1).2 = cacheEx1)
    ∧ ((∃ b, (ask (some askUrlReprocess) worldStub cacheEx1).1 = .resp 400 b) ∧
      (ask (some askUrlReprocess) worldStub cacheEx1).2 = cacheEx1) :=
  ⟨ask_conflicting_modes_rejected askBothModes worldStub cacheEx1
      (Or.inl ⟨by decide, by decide⟩),
   ask_conflicting_modes_rejected askUrlReprocess worldStub cacheEx1
      (Or.inr ⟨by decide, rfl⟩)⟩

/-- C8: `/delete_thread` with a well-formed body returns 200 on
successful deletion — resetting the whole processor cache to size 0,
with every key (related or not) gone — 404 when the thread is not
found, and 400 when the key is missing (empty after strip) or fails
validation; in the non-200 cases the cache is untouched. -/
theorem delete_thread_statuses (raw : String) (w : World) (c : QueryProcessorCache) :
    (pyStrip raw ≠ "" → w.validate_thread_key (pyStrip raw) = true →
      w.deleteThread (pyStrip raw) = .ok true →
      delete_thread (some raw) w c =
        ((200, "Thread '" ++ pyStrip raw ++ "' deleted successfully"), c.clear)
      ∧ (c.clear).size = 0 ∧ ∀ j, lookupA (c.clear)._cache j = none)
    ∧ (pyStrip raw ≠ "" → w.validate_thread_key (pyStrip raw) = true →
        w.deleteThread (pyStrip raw) = .ok false →
        delete_thread (some raw) w c = ((404, "Error: Thread not found"), c))
    ∧ (pyStrip raw = "" →
        delete_thread (some raw) w c = ((400, "Error: thread_key is required"), c))
    ∧ (pyStrip raw ≠ "" → w.validate_thread_key (pyStrip raw) = false →
        delete_thread (some raw) w c = ((400, "Error: Invalid thread key"), c)) := by
  refine ⟨?_, ?_, ?_, ?_⟩
  · intro hne hv hdel
    refine ⟨?_, rfl, fun j => rfl⟩
    unfold delete_thread
    simp [hne, hv, hdel]
  · intro hne hv hdel
    unfold delete_thread
    simp [hne, hv, hdel]
  · intro hempty
    unfold delete_thread
    simp [hempty]
  · intro hne hv
    unfold delete_thread
    simp [hne, hv]

theorem delete_thread_statuses_witness :
    (delete_thread (some "t") worldStub cacheExFull =
        ((200, "Thread 't' deleted successfully"), cacheExFull.clear)
      ∧ (cacheExFull.clear).size = 0 ∧ ∀ j, lookupA (cacheExFull.clear)._cache j = none)
    ∧ delete_thread (some "u") worldStub cacheExFull =
        ((404, "Error: Thread not found"), cacheExFull)
    ∧ delete_thread (some " ") worldStub cacheExFull =
        ((400, "Error: thread_key is required"), cacheExFull)
    ∧ delete_thread (some "bad") worldStub cacheExFull =
        ((400, "Error: Invalid thread key"), cacheExFull) :=
  ⟨(delete_thread_statuses "t" worldStub cacheExFull).1 (by decide) rfl rfl,
   (delete_thread_statuses "u" worldStub cacheExFull).2.1 (by decide) rfl rfl,
   (delete_thread_statuses " " worldStub cacheExFull).2.2.1 rfl,
   (delete_thread_statuses "bad" worldStub cacheExFull).2.2.2 (by decide) rfl⟩

/-- A world with no thread directories at all: any existing-thread
request hits the not-found path, and constructing a query processor on
the missing directory raises. -/
def worldGhost : World :=
  { threadExists := fun _ => false,
    validate_thread_key := fun _ => true,
    normalize_url := fun u => u,
    processThread := fun _ => ([], .error "unused"),
    reprocessThread := fun _ => ([], .error "unused"),
    ctorFails := fun _ => some "missing thread directory",
    processQuery := fun _ _ => .error "unused",
    deleteThread := fun _ => .ok false }

/-- C1 (divergence evidence): for `{existing_thread:"ghost", prompt:"x"}`
with no backing directory, the stream does contain the single
`Error: Thread 'ghost' not found...` line, but it does NOT end there:
because `process_thread_async` assigns `thread_key = existing_thread`
(app.py line 358) before the existence check, the consumer's
`if not thread_key` guard does not fire, and the stream continues with
the query-analysis phase (`Analyzing query and searching thread...`)
and whatever the query path produces. -/
theorem ask_missing_existing_thread_stream_continues :
    ask (some ⟨"x", "", "ghost", false⟩) worldGhost (initCache 5) =
      (.stream ["Error: Thread 'ghost' not found. Please delete and recreate with URL.\n",
                "Analyzing query and searching thread...\n\n",
                "\n\nError: missing thread directory\n"],
       initCache 5) := rfl

/-- A world in which reprocessing an existing thread raises `boom`
after one progress event, and query-engine construction raises. -/
def worldReprocessRaises : World :=
  { threadExists := fun _ => true,
    validate_thread_key := fun _ => true,
    normalize_url := fun u => u,
    processThread := fun _ => ([], .error "unused"),
    reprocessThread := fun _ => (["step"], .error "boom"),
    ctorFails := fun _ => some "ctorfail",
    processQuery := fun _ _ => .error "unused",
    deleteThread := fun _ => .ok false }

/-- C3 counterexample: an exception (`boom`) raised during background
ingestion is converted to the `\n\nError: boom\n` line, but that line
is neither trailing nor followed by the end of the stream — the stream
continues into the query-analysis phase, contradicting the claim that
after the single converted error line the stream is closed. -/
theorem streaming_error_line_not_trailing_counterexample :
    (ask (some ⟨"x", "", "abc", true⟩) worldReprocessRaises (initCache 5)).1 =
      .stream ["Reprocessing existing thread: abc\n",
               "Re-parsing HTML files and rebuilding indexes...\n\n",
               "PROGRESS: step\n",
               "\n\nError: boom\n",
               "Analyzing query and searching thread...\n\n",
               "\n\nError: ctorfail\n"]
    ∧ ["Reprocessing existing thread: abc\n",
       "Re-parsing HTML files and rebuilding indexes...\n\n",
       "PROGRESS: step\n",
       "\n\nError: boom\n",
       "Analyzing query and searching thread...\n\n",
       "\n\nError: ctorfail\n"].getLast? ≠ some "\n\nError: boom\n" :=
  ⟨rfl, by decide⟩

/-- A `get` with a successful constructor never errors. -/
theorem get_none_isOk (c : QueryProcessorCache) (k : String) :
    ∃ r, c.get k none = .ok r := by
  cases hlk : lookupA c._cache k with
  | some p => exact ⟨_, get_hit hlk none⟩
  | none => exact ⟨_, get_miss hlk⟩

/-- C3 (amended): every exception is caught and rendered in-stream as a
`\n\nError: <message>\n` line (never a raw dump; the response stays the
200 stream).  An exception raised in the query/answer phase produces
that line as the final element and the stream closes; an exception
raised during background ingestion emits the line but the stream
continues — with `Error: Thread processing failed.` when no thread key
was resolved (url mode), or with the query-analysis phase when one was
(reprocess mode). -/
theorem streaming_exception_containment (w : World) (prompt tk url existing e : String)
    (c : QueryProcessorCache) (evts chunks : List String) (qr : QueryResults) :
    (lookupA c._cache tk = none → w.ctorFails tk = some e →
      (consumerPhase prompt (some tk) w c).1 =
        ["Analyzing query and searching thread...\n\n", excLine e])
    ∧ (w.ctorFails tk = none → w.processQuery tk prompt = .error e →
        (consumerPhase prompt (some tk) w c).1 =
          ["Analyzing query and searching thread...\n\n", excLine e])
    ∧ (w.ctorFails tk = none → w.processQuery tk prompt = .ok qr → qr.error = none →
        qr.response_stream = some (chunks, some e) →
        (consumerPhase prompt (some tk) w c).1 =
          ["Analyzing query and searching thread...\n\n"] ++ analysisLines qr.analysis ++
            chunks.filter (fun ch => ch != "") ++ [excLine e])
    ∧ (w.processThread (w.normalize_url url) = (evts, .error e) →
        (generate_response prompt "" url false w c).1 =
          ["Creating new thread from: " ++ w.normalize_url url ++ "\n",
           "Downloading and processing all pages...\n\n"] ++
            evts.map progress_update ++ [excLine e, "Error: Thread processing failed.\n"])
    ∧ (existing ≠ "" → w.threadExists existing = true →
        w.reprocessThread existing = (evts, .error e) →
        (generate_response prompt existing "" true w c).1 =
          ["Reprocessing existing thread: " ++ existing ++ "\n",
           "Re-parsing HTML files and rebuilding indexes...\n\n"] ++
            evts.map progress_update ++ [excLine e] ++
            (consumerPhase prompt (some existing) w c).1
        ∧ ((consumerPhase prompt (some existing) w c).1).head? =
            some "Analyzing query and searching thread...\n\n") := by
  refine ⟨?_, ?_, ?_, ?_, ?_⟩
  · intro hmiss hctor
    dsimp only [consumerPhase]
    rw [hctor, get_miss_ctor_raises hmiss]
  · intro hctor hq
    obtain ⟨⟨p, c'⟩, hget⟩ := get_none_isOk c tk
    dsimp only [consumerPhase]
    rw [hctor, hget, hq]
  · intro hctor hq herr hrs
    obtain ⟨⟨p, c'⟩, hget⟩ := get_none_isOk c tk
    dsimp only [consumerPhase]
    rw [hctor, hget, hq]
    simp [herr, hrs]
  · intro hpt
    rw [generate_response_decomp]
    unfold process_thread_async newThreadBg
    simp only [ne_eq, not_true_eq_false, if_false, hpt]
    simp [consumerPhase]
  · intro hne hex hrt
    rw [generate_response_decomp]
    unfold process_thread_async reprocessBg
    simp only [ne_eq, hne, not_false_eq_true, if_true, hex, ite_true, not_true_eq_false,
      if_false, hrt]
    exact ⟨by simp, consumerPhase_head prompt existing w c⟩

/-- A world exhibiting each exception path of C3 on a different thread
key: construction raises for `t1`, query processing raises for `t2`,
the answer stream raises after one chunk for `t3`; ingestion raises for
any url, reprocessing raises after one progress event. -/
def worldExc : World :=
  { threadExists := fun _ => true,
    validate_thread_key := fun _ => true,
    normalize_url := fun u => u,
    processThread := fun _ => (["p1"], .error "ingestboom"),
    reprocessThread := fun _ => (["p2"], .error "reboom"),
    ctorFails := fun k => if k = "t1" then some "ctorboom" else none,
    processQuery := fun k _ =>
      if k = "t2" then .error "qboom"
      else .ok { error := none, analysis := none,
                 response_stream := some (["chunk", ""], some "streamboom") },
    deleteThread := fun _ => .ok false }

theorem streaming_exception_containment_witness :
    ((consumerPhase "p" (some "t1") worldExc (initCache 2)).1 =
       ["Analyzing query and searching thread...\n\n", excLine "ctorboom"])
    ∧ ((consumerPhase "p" (some "t2") worldExc (initCache 2)).1 =
       ["Analyzing query and searching thread...\n\n", excLine "qboom"])
    ∧ ((consumerPhase "p" (some "t3") worldExc (initCache 2)).1 =
       ["Analyzing query and searching thread...\n\n"] ++
         analysisLines none ++
         (["chunk", ""].filter (fun ch => ch != "")) ++ [excLine "streamboom"])
    ∧ ((generate_response "p" "" "u" false worldExc (initCache 2)).1 =
       ["Creating new thread from: " ++ "u" ++ "\n",
        "Downloading and processing all pages...\n\n"] ++
         ["p1"].map progress_update ++
         [excLine "ingestboom", "Error: Thread processing failed.\n"])
    ∧ ((generate_response "p" "t5" "" true worldExc (initCache 2)).1 =
       ["Reprocessing existing thread: t5\n",
        "Re-parsing HTML files and rebuilding indexes...\n\n"] ++
         ["p2"].map progress_update ++ [excLine "reboom"] ++
         (consumerPhase "p" (some "t5") worldExc (initCache 2)).1
      ∧ ((consumerPhase "p" (some "t5") worldExc (initCache 2)).1).head? =
          some "Analyzing query and searching thread...\n\n") :=
  ⟨(streaming_exception_containment worldExc "p" "t1" "u" "t5" "ctorboom" (initCache 2)
      [] [] ⟨none, none, none⟩).1 rfl rfl,
   (streaming_exception_containment worldExc "p" "t2" "u" "t5" "qboom" (initCache 2)
      [] [] ⟨none, none, none⟩).2.1 rfl rfl,
   (streaming_exception_containment worldExc "p" "t3" "u" "t5" "streamboom" (initCache 2)
      [] ["chunk", ""]
      ⟨none, none, some (["chunk", ""], some "streamboom")⟩).2.2.1 rfl rfl rfl rfl,
   (streaming_exception_containment worldExc "p" "t" "u" "t5" "ingestboom" (initCache 2)
      ["p1"] [] ⟨none, none, none⟩).2.2.2.1 rfl,
   (streaming_exception_containment worldExc "p" "t" "u" "t5" "reboom" (initCache 2)
      ["p2"] [] ⟨none, none, none⟩).2.2.2.2 (by decide) rfl rfl⟩

/-- C5: each progress event is pushed into the queue as the literal
text `"PROGRESS: " + message + "\n"`; the events appear in the stream
in FIFO order (`List.map` preserves order) inside the background
segment; and the whole background segment — hence every progress
message — strictly precedes the consumer (query-analysis/answer)
phase. -/
theorem progress_events_literal_fifo_before_answer (w : World)
    (prompt url existing : String) (reprocess : Bool) (c : QueryProcessorCache)
    (evts : List String) (res : Except String (String × JVal)) :
    (∀ m, progress_update m = "PROGRESS: " ++ m ++ "\n")
    ∧ (generate_response prompt existing url reprocess w c).1 =
        (process_thread_async existing url reprocess w).1 ++
        (consumerPhase prompt (process_thread_async existing url reprocess w).2 w c).1
    ∧ (w.processThread (w.normalize_url url) = (evts, res) →
        (process_thread_async "" url reprocess w).1 =
          ["Creating new thread from: " ++ w.normalize_url url ++ "\n",
           "Downloading and processing all pages...\n\n"] ++
            evts.map progress_update ++
            (match res with
             | .error e => [excLine e]
             | .ok x => newThreadResultMsgs x.1 x.2))
    ∧ (existing ≠ "" → w.threadExists existing = true →
        w.reprocessThread existing = (evts, res) →
        (process_thread_async existing url true w).1 =
          ["Reprocessing existing thread: " ++ existing ++ "\n",
           "Re-parsing HTML files and rebuilding indexes...\n\n"] ++
            evts.map progress_update ++
            (match res with
             | .error e => [excLine e]
             | .ok x => reprocessResultMsgs x.2)) := by
  refine ⟨fun m => rfl, generate_response_decomp prompt existing url reprocess w c, ?_, ?_⟩
  · intro hpt
    unfold process_thread_async newThreadBg
    simp only [ne_eq, not_true_eq_false, if_false, hpt]
    cases res with
    | error e => simp
    | ok x =>
      obtain ⟨tk, results⟩ := x
      simp
  · intro hne hex hrt
    unfold process_thread_async reprocessBg
    simp only [ne_eq, hne, not_false_eq_true, if_true, hex, not_true_eq_false, if_false, hrt]
    cases res with
    | error e => simp
    | ok x =>
      obtain ⟨tk2, results⟩ := x
      simp

/-- A world whose ingestion emits two progress events and succeeds, and
whose reprocessing emits one event and succeeds. -/
def worldProg : World :=
  { threadExists := fun _ => true,
    validate_thread_key := fun _ => true,
    normalize_url := fun u => u,
    processThread := fun _ =>
      (["page 1", "page 2"], .ok ("tk1", .dict [("posts_count", .num 42)])),
    reprocessThread := fun _ =>
      (["re 1"], .ok ("tk1", .dict [("posts_count", .num 7)])),
    ctorFails := fun _ => none,
    processQuery := fun _ _ => .error "unused",
    deleteThread := fun _ => .ok false }

theorem progress_events_literal_fifo_before_answer_witness :
    (progress_update "fetching" = "PROGRESS: " ++ "fetching" ++ "\n")
    ∧ (generate_response "p" "" "u" false worldProg (initCache 2)).1 =
        (process_thread_async "" "u" false worldProg).1 ++
        (consumerPhase "p" (process_thread_async "" "u" false worldProg).2 worldProg
          (initCache 2)).1
    ∧ (process_thread_async "" "u" false worldProg).1 =
        ["Creating new thread from: " ++ "u" ++ "\n",
         "Downloading and processing all pages...\n\n"] ++
          ["page 1", "page 2"].map progress_update ++
          newThreadResultMsgs "tk1" (.dict [("posts_count", .num 42)])
    ∧ (process_thread_async "t9" "" true worldProg).1 =
        ["Reprocessing existing thread: t9\n",
         "Re-parsing HTML files and rebuilding indexes...\n\n"] ++
          ["re 1"].map progress_update ++
          reprocessResultMsgs (.dict [("posts_count", .num 7)]) :=
  ⟨(progress_events_literal_fifo_before_answer worldProg "p" "u" "" false (initCache 2)
      [] (.error "x")).1 "fetching",
   (progress_events_literal_fifo_before_answer worldProg "p" "u" "" false (initCache 2)
      [] (.error "x")).2.1,
   (progress_events_literal_fifo_before_answer worldProg "p" "u" "" false (initCache 2)
      ["page 1", "page 2"]
      (.ok ("tk1", .dict [("posts_count", .num 42)]))).2.2.1 rfl,
   (progress_events_literal_fifo_before_answer worldProg "p" "u" "t9" true (initCache 2)
      ["re 1"] (.ok ("tk1", .dict [("posts_count", .num 7)]))).2.2.2 (by decide) rfl rfl⟩

/-- C6: the analytics preview (i) renders absent participant/page
fields as the `Unknown` placeholder, (ii) reports as most-active the
first author (in dict iteration order) attaining the maximal
`post_count`, emitting the line only when that count is positive, and
(iii) never fails the request on a malformed summary: whatever value
`processing_results` is, the thread key stays resolved and the stream
continues into the query/answer phase (a raise inside the preview is
caught by the background `except`, which only appends an in-stream
error line). -/
theorem analytics_preview_derivation
    (metadata participants : List (String × JVal)) (a0 : String × JVal)
    (arest : List (String × JVal)) (kf : String × JVal → Int)
    (results : JVal) (url prompt tk : String) (evts : List String)
    (w : World) (c : QueryProcessorCache) :
    (lookupJ participants "total_participants" = none →
     lookupJ metadata "total_pages" = none →
     lookupJ participants "authors" = none →
     analyticsPreviewMsgs
        (.dict [("analytics_summary",
          .dict [("metadata", .dict metadata), ("participants", .dict participants)])]) =
       (["Participants: Unknown\n", "Pages: Unknown\n"], none))
    ∧ (∀ tp pg,
        lookupJ participants "total_participants" = some tp →
        lookupJ metadata "total_pages" = some pg →
        lookupJ participants "authors" = some (.dict (a0 :: arest)) →
        (∀ x ∈ a0 :: arest, jget x.2 "post_count" (.num 0) = .ok (.num (kf x))) →
        ∃ winner,
          (a0 :: arest).find?
              (fun x => kf x == (arest.map kf).foldl max (kf a0)) = some winner ∧
          analyticsPreviewMsgs
            (.dict [("analytics_summary",
              .dict [("metadata", .dict metadata), ("participants", .dict participants)])]) =
            (["Participants: " ++ pyStr tp ++ "\n", "Pages: " ++ pyStr pg ++ "\n"] ++
              (if 0 < kf winner then
                ["Most active: " ++ winner.1 ++ " (" ++ pyStr (.num (kf winner)) ++ " posts)\n"]
               else []),
             none))
    ∧ (w.processThread (w.normalize_url url) = (evts, .ok (tk, results)) →
        (process_thread_async "" url false w).2 = some tk
        ∧ (generate_response prompt "" url false w c).1 =
            (process_thread_async "" url false w).1 ++
            (consumerPhase prompt (some tk) w c).1) := by
  refine ⟨?_, ?_, ?_⟩
  · intro h1 h2 h3
    simp [analyticsPreviewMsgs, jget, lookupJ, truthy, h1, h2, h3, pyStr, pyRepr]
  · intro tp pg htp hpg hauth hkey
    refine ⟨goM kf a0 arest, goM_find kf arest a0, ?_⟩
    have hwinkey : jget (goM kf a0 arest).2 "post_count" (.num 0) =
        .ok (.num (kf (goM kf a0 arest))) := hkey _ (goM_mem kf arest a0)
    have hmax : pyMax (fun x => jget x.2 "post_count" (.num 0)) (a0 :: arest) =
        .ok (goM kf a0 arest) := pyMax_num a0 arest hkey
    simp only [jget] at hmax hwinkey
    by_cases hpos : 0 < kf (goM kf a0 arest)
    · simp [analyticsPreviewMsgs, jget, lookupJ, jitems, truthy, htp, hpg, hauth,
        hmax, hwinkey, pyGt_num, hpos]
    · simp [analyticsPreviewMsgs, jget, lookupJ, jitems, truthy, htp, hpg, hauth,
        hmax, hwinkey, pyGt_num, hpos]
  · intro hpt
    have h2 : (process_thread_async "" url false w).2 = some tk := by
      unfold process_thread_async newThreadBg
      simp [hpt]
    refine ⟨h2, ?_⟩
    rw [generate_response_decomp, h2]

/-- A world whose ingestion succeeds but returns a malformed (non-dict)
`processing_results`. -/
def worldMalformed : World :=
  { threadExists := fun _ => true,
    validate_thread_key := fun _ => true,
    normalize_url := fun u => u,
    processThread := fun _ => (["e1"], .ok ("tk1", .str "garbage")),
    reprocessThread := fun _ => ([], .error "unused"),
    ctorFails := fun _ => none,
    processQuery := fun _ _ => .error "unused",
    deleteThread := fun _ => .ok false }

/-- Example analytics data: two authors tied at 5 posts. -/
def exMetadata : List (String × JVal) := [("total_pages", .num 3)]

def exA0 : String × JVal := ("alice", .dict [("post_count", .num 5)])

def exARest : List (String × JVal) := [("bob", .dict [("post_count", .num 5)])]

def exParticipants : List (String × JVal) :=
  [("total_participants", .num 7), ("authors", .dict (exA0 :: exARest))]

def exResultsGood : JVal :=
  .dict [("analytics_summary",
    .dict [("metadata", .dict exMetadata), ("participants", .dict exParticipants)])]

def exParticipantsSparse : List (String × JVal) := [("other", .null)]

def exResultsSparse : JVal :=
  .dict [("analytics_summary",
    .dict [("metadata", .dict []), ("participants", .dict exParticipantsSparse)])]

def exKf : String × JVal → Int := fun _ => 5

theorem analytics_preview_derivation_witness :
    (analyticsPreviewMsgs exResultsSparse =
      (["Participants: Unknown\n", "Pages: Unknown\n"], none))
    ∧ (∃ winner,
        (exA0 :: exARest).find?
            (fun x => exKf x == (exARest.map exKf).foldl max (exKf exA0)) = some winner ∧
        analyticsPreviewMsgs exResultsGood =
          (["Participants: " ++ pyStr (.num 7) ++ "\n",
            "Pages: " ++ pyStr (.num 3) ++ "\n"] ++
            (if 0 < exKf winner then
              ["Most active: " ++ winner.1 ++ " (" ++
                pyStr (.num (exKf winner)) ++ " posts)\n"]
             else []),
           none))
    ∧ ((process_thread_async "" "u" false worldMalformed).2 = some "tk1"
        ∧ (generate_response "p" "" "u" false worldMalformed (initCache 2)).1 =
            (process_thread_async "" "u" false worldMalformed).1 ++
            (consumerPhase "p" (some "tk1") worldMalformed (initCache 2)).1) :=
  ⟨(analytics_preview_derivation [] exParticipantsSparse
      exA0 exARest exKf .null "u" "p" "t" [] worldMalformed (initCache 2)).1
      rfl rfl rfl,
   (analytics_preview_derivation exMetadata exParticipants
      exA0 exARest exKf .null "u" "p" "t" [] worldMalformed (initCache 2)).2.1
      (.num 7) (.num 3) rfl rfl rfl
      (by intro x hx
          simp only [exA0, exARest, List.mem_cons, List.not_mem_nil, or_false] at hx
          rcases hx with rfl | rfl <;> rfl),
   (analytics_preview_derivation [] [] exA0 [] exKf
      (.str "garbage") "u" "p" "tk1" ["e1"] worldMalformed (initCache 2)).2.2 rfl⟩

end ForumApp
